import Mathlib

/-!
Verification of the rustc compiler-adapter core (`src/compiler/rust.rs`).

The Rust code is shallowly embedded: command-line tokens are `String`s,
argument pairs are `String × Option String`, the SHA-1 digest is abstracted
as the ordered trace of byte-chunks fed into it (equal traces give equal
keys), and the `HashMap` of outputs is an association list with
insert-overwrite semantics.  Rust's `Vec::sort` (a stable sort producing the
sorted permutation, which is unique under a total antisymmetric order) is
modelled with `List.insertionSort`.
-/

namespace SccacheRust

/-! ## String utilities (models of Rust `str` operations) -/

/-- Boolean lexicographic strict order on characters, by code point.
Models byte order on UTF-8 strings (code-point order and UTF-8 byte
order agree). -/
def charLt (a b : Char) : Bool := decide (a < b)

/-- Boolean lexicographic (non-strict) order on char lists; models
`Ord` on Rust `String`/`str`/`PathBuf`-as-string (byte lexicographic). -/
def listLe : List Char → List Char → Bool
  | [], _ => true
  | _ :: _, [] => false
  | a :: as, b :: bs => if a = b then listLe as bs else charLt a b

/-- Lexicographic order on strings, models Rust `String: Ord`. -/
def strLe (a b : String) : Bool := listLe a.data b.data

/-- Models Rust `str::starts_with`. -/
def strStartsWith (s pre : String) : Bool := pre.data.isPrefixOf s.data

/-- Models Rust `str::ends_with` (used for the path-join model). -/
def strEndsWith (s suf : String) : Bool := suf.data.isSuffixOf s.data

/-- Split a char list at the first occurrence of `c`; `none` when `c` does
not occur.  Models Rust `str::find(char)` plus taking the two slices. -/
def breakAtChar (c : Char) : List Char → Option (List Char × List Char)
  | [] => none
  | x :: xs =>
    if x = c then some ([], xs)
    else (breakAtChar c xs).map (fun p => (x :: p.1, p.2))

/-- Split a string at its first `'='`: models both `arg.find('=')` with the
two slices, and `s.splitn(2, "=")`. -/
def findEq (s : String) : Option (String × String) :=
  (breakAtChar '=' s.data).map (fun p => (String.mk p.1, String.mk p.2))

/-- Split a char list on every occurrence of `c` (Rust `str::split`):
always at least one piece, empty pieces kept. -/
def splitCh (c : Char) : List Char → List (List Char)
  | [] => [[]]
  | x :: xs =>
    if x = c then [] :: splitCh c xs
    else
      match splitCh c xs with
      | h :: t => (x :: h) :: t
      | [] => [[x]]

/-- Models Rust `str::split(",")` producing strings. -/
def splitComma (s : String) : List String :=
  (splitCh ',' s.data).map String.mk

/-- Models Rust `str::trim` (drop leading and trailing whitespace). -/
def trimChars (l : List Char) : List Char :=
  ((l.dropWhile Char.isWhitespace).reverse.dropWhile Char.isWhitespace).reverse

/-- Drop a single trailing `'\r'`, as Rust `str::lines` does per line. -/
def stripCR (l : List Char) : List Char :=
  match l.getLast? with
  | some '\r' => l.dropLast
  | _ => l

/-- Models Rust `str::lines`: split on `'\n'`, drop the final piece when it
is empty (terminator semantics), strip one trailing `'\r'` per line. -/
def rustLines (s : String) : List String :=
  let parts := splitCh '\n' s.data
  let parts := if parts.getLast? = some [] then parts.dropLast else parts
  parts.map (fun l => String.mk (stripCR l))

/-- Models Rust `Path::join` for Unix-style paths as strings: an absolute
right-hand side wins; otherwise concatenate with a single separator. -/
def pathJoin (base p : String) : String :=
  if strStartsWith p "/" then p
  else if base = "" then p
  else if strEndsWith base "/" then base ++ p
  else base ++ "/" ++ p

/-! ## The argument iterator (`ArgsIter`) -/

/-- `ARGS_WITH_VALUE` from the source: flags that take a value. -/
def ARGS_WITH_VALUE : List String := [
  "--cfg",
  "-L",
  "-l",
  "--crate-type",
  "--crate-name",
  "--emit",
  "--print",
  "-o",
  "--out-dir",
  "--explain",
  "--target",
  "-W", "--warn",
  "-A", "--allow",
  "-D", "--deny",
  "-F", "--forbid",
  "--cap-lints",
  "-C", "--codegen",
  "--extern",
  "--sysroot",
  "-Z",
  "--error-format",
  "--color",
  "--pretty",
  "--unpretty"]

/-- `arg_in` from the source: `set.contains(arg) || set.iter().any(|a|
arg.starts_with(a))`. -/
def arg_in (arg : String) (set : List String) : Bool :=
  set.contains arg || set.any (fun a => strStartsWith arg a)

/-- `ArgsIter::next`, iterated to exhaustion: yields `(flag, optional
value)` pairs, splitting attached `flag=value` tokens at the first `'='`
and otherwise consuming the next token as the value of a value-taking
flag. -/
def argsIter : List String → List (String × Option String)
  | [] => []
  | arg :: rest =>
    if arg_in arg ARGS_WITH_VALUE then
      match findEq arg with
      | some (flag, value) => (flag, some value) :: argsIter rest
      | none =>
        match rest with
        | [] => [(arg, none)]
        | v :: rest2 => (arg, some v) :: argsIter rest2
    else
      (arg, none) :: argsIter rest

example :
    argsIter ["--emit", "link", "-g", "foo.rs", "--out-dir", "out"] =
      [("--emit", some "link"), ("-g", none), ("foo.rs", none),
       ("--out-dir", some "out")] := by decide

example :
    argsIter ["--emit=link", "-g", "foo.rs", "--out-dir=out"] =
      [("--emit", some "link"), ("-g", none), ("foo.rs", none),
       ("--out-dir", some "out")] := by decide

/-! ## The parser / gate (`parse_arguments`) -/

/-- Result type of `parse_arguments` (`CompilerArguments` in the source). -/
inductive CompilerArguments (α : Type) where
  | Ok (value : α)
  | NotCompilation
  | CannotCache (reason : String)
deriving Repr, DecidableEq

/-- `ALLOWED_EMIT` from the source: emit kinds that may be cached. -/
def ALLOWED_EMIT : List String := ["link", "dep-info"]

/-- The mutable locals of the `parse_arguments` scan loop. -/
structure ScanState where
  emit : Option (List String) := none
  input : Option String := none
  output_dir : Option String := none
  crate_name : Option String := none
  extra_filename : Option String := none
  externs : List String := []
deriving Repr, DecidableEq

/-- An early `return` out of the scan loop. -/
inductive ScanStop where
  | notCompilation
  | cannotCache (reason : String)
deriving Repr, DecidableEq

/-- One iteration of the `for (arg, val) in it` match in `parse_arguments`,
with the match arms in source order. -/
def scanStep (st : ScanState) : String × Option String → Except ScanStop ScanState
  | (arg, val) =>
  if arg = "--help" || arg = "-V" || arg = "--version" || arg = "--print" ||
      arg = "--explain" || arg = "--pretty" || arg = "--unpretty" then
    .error .notCompilation
  else if arg = "-o" then .error (.cannotCache "-o")
  else if arg = "-l" then .error (.cannotCache "-l")
  else if arg = "--emit" then
    if st.emit.isSome then .error (.cannotCache "more than one --emit")
    else .ok { st with emit := val.map splitComma }
  else if arg = "--crate-type" then
    match val with
    | some v =>
      if (splitComma v).any (fun t => t ≠ "lib" && t ≠ "rlib" && t ≠ "staticlib")
      then .error (.cannotCache "crate-type")
      else .ok st
    | none => .ok st
  else if arg = "--out-dir" then .ok { st with output_dir := val }
  else if arg = "--crate-name" then .ok { st with crate_name := val }
  else if arg = "--extern" then
    match val with
    | some v =>
      match findEq v with
      | some (_, crate_file) => .ok { st with externs := st.externs ++ [crate_file] }
      | none => .ok st
    | none => .ok st
  else if arg = "-C" || arg = "--codegen" then
    match val with
    | some codegen_arg =>
      match findEq codegen_arg with
      | some (name, v) =>
        if name = "extra-filename" then .ok { st with extra_filename := some v }
        else .ok st
      | none => .ok st
    | none => .ok st
  else if arg = "-" then .error (.cannotCache "stdin")
  else
    if strStartsWith arg "-" then .ok st
    else if st.input.isSome then .error (.cannotCache "multiple input files")
    else .ok { st with input := some arg }

/-- The whole scan loop over the iterator's pairs. -/
def scanLoop (st : ScanState) : List (String × Option String) → Except ScanStop ScanState
  | [] => .ok st
  | p :: rest =>
    match scanStep st p with
    | .ok st2 => scanLoop st2 rest
    | .error e => .error e

/-- `ParsedArguments` from the source. -/
structure ParsedArguments where
  arguments : List (String × Option String)
  output_dir : String
  externs : List String
  crate_name : String
  dep_info : Option String
deriving Repr, DecidableEq

/-- Prop form of `strLe`, used for sortedness statements. -/
def strLeP (a b : String) : Prop := strLe a b = true

instance : DecidableRel strLeP := fun a b => instDecidableEqBool (strLe a b) true

/-- Rust `Vec::sort` on strings (`externs.sort()`, `deps.sort()`): the
sorted permutation under byte-lexicographic order, which is unique because
the order is total and antisymmetric. -/
def sortStrings (l : List String) : List String := l.insertionSort strLeP

/-- `emit.union(&allowed).count()` on `HashSet`s: the number of distinct
elements of the union. -/
def unionCard (a b : List String) : Nat := (a ++ b).dedup.length

/-- Everything in `parse_arguments` after the scan loop: the required-field
checks (in source order), the emit gate, the dep-info filename, the
re-materialized pair list and the extern sort. -/
def finishParse (pairs : List (String × Option String)) (st : ScanState) :
    CompilerArguments ParsedArguments :=
  match st.input with
  | none => .CannotCache "missing input"
  | some _ =>
  match st.output_dir with
  | none => .CannotCache "missing output_dir"
  | some output_dir =>
  match st.emit with
  | none => .CannotCache "missing emit"
  | some emit =>
  match st.crate_name with
  | none => .CannotCache "missing crate_name"
  | some crate_name =>
  if !emit.isEmpty && !emit.contains "link" then
    .NotCompilation
  else if unionCard emit ALLOWED_EMIT > ALLOWED_EMIT.length then
    .CannotCache "unsupported --emit"
  else
    let dep_info :=
      if emit.contains "dep-info" then
        some (crate_name ++ st.extra_filename.getD "" ++ ".d")
      else none
    .Ok {
      arguments := pairs,
      output_dir := output_dir,
      externs := sortStrings st.externs,
      crate_name := crate_name,
      dep_info := dep_info }

/-- `parse_arguments` from the source.  Tokens are `String`s, so the
`not utf-8` pre-check is vacuous in the model.  The stored pair list is the
re-run of the iterator, which is deterministic, hence `pairs` twice. -/
def parse_arguments (args : List String) : CompilerArguments ParsedArguments :=
  let pairs := argsIter args
  match scanLoop {} pairs with
  | .error .notCompilation => .NotCompilation
  | .error (.cannotCache r) => .CannotCache r
  | .ok st => finishParse pairs st

example :
    parse_arguments ["--emit", "link", "foo.rs", "--out-dir", "out",
      "--crate-name", "foo"] =
      .Ok { arguments := [("--emit", some "link"), ("foo.rs", none),
              ("--out-dir", some "out"), ("--crate-name", some "foo")],
            output_dir := "out", externs := [], crate_name := "foo",
            dep_info := none } := by decide

example :
    parse_arguments ["--emit", "link,dep-info", "foo.rs", "--out-dir", "out",
      "--crate-name", "my_crate", "-C", "extra-filename=-abcxyz"] =
      .Ok { arguments := [("--emit", some "link,dep-info"), ("foo.rs", none),
              ("--out-dir", some "out"), ("--crate-name", some "my_crate"),
              ("-C", some "extra-filename=-abcxyz")],
            output_dir := "out", externs := [], crate_name := "my_crate",
            dep_info := some "my_crate-abcxyz.d" } := by decide

example :
    parse_arguments ["--emit", "link", "--out-dir", "out", "--crate-name=foo"] =
      .CannotCache "missing input" := by decide

example :
    parse_arguments ["--emit", "link", "foo.rs", "--crate-name=foo"] =
      .CannotCache "missing output_dir" := by decide

example :
    parse_arguments ["--emit", "asm", "foo.rs", "--out-dir", "out",
      "--crate-name=foo"] = .NotCompilation := by decide

example :
    parse_arguments ["--emit", "asm,link", "foo.rs", "--out-dir", "out",
      "--crate-name=foo"] = .CannotCache "unsupported --emit" := by decide

example :
    parse_arguments ["--emit", "link", "-l", "bar", "foo.rs", "--out-dir",
      "out"] = .CannotCache "-l" := by decide

example :
    parse_arguments ["--crate-type", "rlib,dylib", "--emit", "link", "foo.rs",
      "--out-dir", "out", "--crate-name", "foo"] =
      .CannotCache "crate-type" := by decide

example :
    (parse_arguments ["--crate-name", "foo", "src/lib.rs", "--crate-type",
      "lib", "--emit=dep-info,link", "-C", "debuginfo=2", "-C",
      "metadata=d6ae26f5bcfb7733", "-C", "extra-filename=-d6ae26f5bcfb7733",
      "--out-dir", "/foo/target/debug/deps",
      "-L", "dependency=/foo/target/debug/deps",
      "--extern", "libc=/foo/target/debug/deps/liblibc-89a24418d48d484a.rlib",
      "--extern", "log=/foo/target/debug/deps/liblog-2f7366be74992849.rlib"]
      |> fun r =>
        match r with
        | .Ok pa => some (pa.output_dir, pa.crate_name, pa.dep_info, pa.externs)
        | _ => none) =
      some ("/foo/target/debug/deps", "foo", some "foo-d6ae26f5bcfb7733.d",
        ["/foo/target/debug/deps/liblibc-89a24418d48d484a.rlib",
         "/foo/target/debug/deps/liblog-2f7366be74992849.rlib"]) := by decide

/-! ## Dep-info parsing and output enumeration (the compiler probe) -/

/-- `line.find(": ")` followed by taking `line[pos + 2 ..]`: everything
after the first colon-space, `none` when there is none. -/
def afterColonSpace : List Char → Option (List Char)
  | ':' :: ' ' :: rest => some rest
  | _ :: rest => afterColonSpace rest
  | [] => none

/-- `.lines().next()` on a string. -/
def firstLine (s : String) : Option String := (rustLines s).head?

/-- `parse_dep_info` from the source: first line only, field after the
first colon-space, split on spaces, trim, drop empties, join onto `cwd`,
sort. -/
def parse_dep_info (dep_info : String) (cwd : String) : List String :=
  match firstLine dep_info with
  | none => []
  | some line =>
    match afterColonSpace line.data with
    | none => []
    | some fld =>
      let deps := (((splitCh ' ' fld).map (fun s => String.mk (trimChars s))).filter
          (fun s => s != "")).map (fun s => pathJoin cwd s)
      sortStrings deps

/-- The output-parsing tail of `get_compiler_outputs`:
`outstr.lines().map(|l| l.to_owned()).collect()` applied to the probe's
standard output (assumed valid UTF-8, as the claims do). -/
def get_compiler_outputs (stdout : String) : List String := rustLines stdout

example : parse_dep_info "foo: baz.rs abc.rs bar.rs\n\nbaz.rs:\n\nabc.rs:\n\nbar.rs:\n" "" =
    ["abc.rs", "bar.rs", "baz.rs"] := by decide

example : parse_dep_info "foo: baz.rs abc.rs bar.rs\n\nbaz.rs:\n\nabc.rs:\n\nbar.rs:\n" "foo/" =
    ["foo/abc.rs", "foo/bar.rs", "foo/baz.rs"] := by decide

example : parse_dep_info "/foo/foo: /foo/baz.rs /foo/abc.rs /foo/bar.rs\n" "/bar/" =
    ["/foo/abc.rs", "/foo/bar.rs", "/foo/baz.rs"] := by decide

example : get_compiler_outputs "foo\nbar\nbaz" = ["foo", "bar", "baz"] := by decide

/-! ## The key composer (`generate_hash_key`) -/

/-- The flags whose pairs cargo emits in non-deterministic order; the
partition predicate in `generate_hash_key`. -/
def sortableFlag (arg : String) : Bool :=
  arg == "--extern" || arg == "-L" || arg == "--cfg"

/-- Rust `Option<OsString>: Ord` (`None` before `Some`, values
lexicographic), as a Boolean ≤. -/
def optStrLe : Option String → Option String → Bool
  | none, _ => true
  | some _, none => false
  | some a, some b => strLe a b

/-- Rust tuple `Ord` with a `String` first component, as a Boolean ≤:
lexicographic on the pair (`le2` orders the second components). -/
def lexPairLe {β : Type} (le2 : β → β → Bool) (p q : String × β) : Bool :=
  if p.1 = q.1 then le2 p.2 q.2 else strLe p.1 q.1

/-- Rust `(OsString, Option<OsString>): Ord` as a Boolean ≤: lexicographic
on the pair. -/
def pairLe (p q : String × Option String) : Bool := lexPairLe optStrLe p q

/-- Prop form of `pairLe`. -/
def pairLeP (p q : String × Option String) : Prop := pairLe p q = true

instance : DecidableRel pairLeP := fun p q => instDecidableEqBool (pairLe p q) true

/-- `sortables.sort()`: Rust `Vec::sort` on argument pairs. -/
def sortPairs (l : List (String × Option String)) : List (String × Option String) :=
  l.insertionSort pairLeP

/-- Flatten one pair back to tokens: the flag, then the value if present. -/
def pairToks (p : String × Option String) : List String := p.1 :: p.2.toList

/-- The canonical argument blob of `generate_hash_key`: partition off the
sortable pairs (preserving order on both sides), sort them, append them
after the rest, flatten, and concatenate with no separator. -/
def argsBlob (pairs : List (String × Option String)) : String :=
  let sortables := pairs.filter (fun p => sortableFlag p.1)
  let rest := pairs.filter (fun p => !sortableFlag p.1)
  String.join ((rest ++ sortPairs sortables).flatMap pairToks)

/-- Rust `(OsString, OsString): Ord` as a Boolean ≤ (for `env_vars.sort()`). -/
def envPairLe (p q : String × String) : Bool := lexPairLe strLe p q

/-- Prop form of `envPairLe`. -/
def envPairLeP (p q : String × String) : Prop := envPairLe p q = true

instance : DecidableRel envPairLeP := fun p q => instDecidableEqBool (envPairLe p q) true

/-- `env_vars.sort()`. -/
def sortEnv (l : List (String × String)) : List (String × String) :=
  l.insertionSort envPairLeP

/-- The environment-variable filter of `generate_hash_key`: the name
starts with `CARGO_` (names are `String`s here, hence UTF-8). -/
def cargoVar (p : String × String) : Bool := strStartsWith p.1 "CARGO_"

/-- Step 6 of `generate_hash_key`: sort the environment, then feed
name, `=`, value for every `CARGO_`-prefixed name, as digest updates. -/
def envTrace (env_vars : List (String × String)) : List String :=
  (sortEnv env_vars).flatMap (fun p => if cargoVar p then [p.1, "=", p.2] else [])

/-- `CACHE_VERSION` from the source. -/
def CACHE_VERSION : String := "2"

/-- The ordered trace of chunks fed to the SHA-1 hasher in
`generate_hash_key`; SHA-1 itself is abstracted, so the trace stands for
the cache key (equal traces give equal digests). -/
def hashKeyTrace (shlibs : List String) (arguments : List (String × Option String))
    (source_hashes extern_hashes : List String)
    (env_vars : List (String × String)) : List String :=
  [CACHE_VERSION] ++ shlibs ++ [argsBlob arguments]
    ++ source_hashes ++ extern_hashes ++ envTrace env_vars

/-- `HashMap::insert` on an association list: overwrite the value when the
key is present, append otherwise. -/
def insertOutput (m : List (String × String)) (k v : String) :
    List (String × String) :=
  if m.any (fun p => p.1 == k) then
    m.map (fun p => if p.1 == k then (k, v) else p)
  else m ++ [(k, v)]

/-- `HashMap` lookup on the association-list model. -/
def lookupOutput (m : List (String × String)) (k : String) : Option String :=
  (m.find? (fun p => p.1 == k)).map Prod.snd

/-- The outputs map of `generate_hash_key`: every probe basename maps to
`output_dir.join(basename)`; then, when a dep-info filename exists, it is
inserted (last, overwriting) with its path in the output directory. -/
def buildOutputs (probe : List String) (output_dir : String)
    (dep_info : Option String) : List (String × String) :=
  let m := probe.foldl (fun m o => insertOutput m o (pathJoin output_dir o)) []
  match dep_info with
  | some d => insertOutput m d (pathJoin output_dir d)
  | none => m

/-- The result of `generate_hash_key`: the key (as the digest trace) and
the outputs map of the compilation handle. -/
structure HashResult where
  key : List String
  outputs : List (String × String)
deriving Repr, DecidableEq

/-- `generate_hash_key` from the source, over the parsed arguments and the
externally supplied probe results: the source-file digests (dep-info probe
plus hashing, in sorted dep order), the extern-artifact digests (in the
parse-time extern order) and the file-name-print basenames. -/
def generate_hash_key (shlibs : List String) (pa : ParsedArguments)
    (source_hashes extern_hashes : List String)
    (env_vars : List (String × String)) (probe_outputs : List String) :
    HashResult :=
  { key := hashKeyTrace shlibs pa.arguments source_hashes extern_hashes env_vars,
    outputs := buildOutputs probe_outputs pa.output_dir pa.dep_info }

example :
    argsBlob [("a", none), ("--extern", some "xyz"), ("b", none),
      ("--extern", some "abc")] = "ab--externabc--externxyz" := by decide

example :
    envTrace [("CARGO_PKG_NAME", "foo"), ("FOO", "bar"), ("CARGO_BLAH", "abc")] =
      ["CARGO_BLAH", "=", "abc", "CARGO_PKG_NAME", "=", "foo"] := by decide

/-! ## Order lemmas for the modelled Rust comparisons -/

theorem charLt_iff {a b : Char} : charLt a b = true ↔ a < b := by
  simp [charLt]

theorem listLe_total : ∀ a b : List Char, listLe a b = true ∨ listLe b a = true
  | [], _ => Or.inl rfl
  | _ :: _, [] => Or.inr rfl
  | a :: as, b :: bs => by
    by_cases hab : a = b
    · subst hab
      simpa [listLe] using listLe_total as bs
    · rcases lt_or_gt_of_ne hab with h | h
      · left; simp [listLe, hab, charLt_iff, h]
      · right; simp [listLe, Ne.symm hab, charLt_iff, h]

theorem listLe_antisymm : ∀ {a b : List Char},
    listLe a b = true → listLe b a = true → a = b
  | [], [], _, _ => rfl
  | [], _ :: _, _, h => by simp [listLe] at h
  | _ :: _, [], h, _ => by simp [listLe] at h
  | a :: as, b :: bs, h1, h2 => by
    by_cases hab : a = b
    · subst hab
      simp only [listLe, if_pos rfl] at h1 h2
      rw [listLe_antisymm h1 h2]
    · exfalso
      simp only [listLe, if_neg hab] at h1
      simp only [listLe, if_neg (Ne.symm hab)] at h2
      exact absurd (charLt_iff.mp h1) (not_lt_of_gt (charLt_iff.mp h2))

theorem listLe_trans : ∀ {a b c : List Char},
    listLe a b = true → listLe b c = true → listLe a c = true
  | [], _, _, _, _ => rfl
  | _ :: _, [], _, h, _ => by simp [listLe] at h
  | _ :: _, _ :: _, [], _, h => by simp [listLe] at h
  | a :: as, b :: bs, c :: cs, h1, h2 => by
    by_cases hab : a = b <;> by_cases hbc : b = c
    · subst hab; subst hbc
      simp only [listLe, if_pos rfl] at h1 h2 ⊢
      exact listLe_trans h1 h2
    · subst hab
      simp only [listLe, if_neg hbc] at h2 ⊢
      exact h2
    · subst hbc
      simp only [listLe, if_neg hab] at h1 ⊢
      exact h1
    · simp only [listLe, if_neg hab] at h1
      simp only [listLe, if_neg hbc] at h2
      have hac : a < c := lt_trans (charLt_iff.mp h1) (charLt_iff.mp h2)
      simp [listLe, ne_of_lt hac, charLt_iff, hac]

theorem strLe_total (a b : String) : strLe a b = true ∨ strLe b a = true :=
  listLe_total _ _

theorem strLe_trans {a b c : String} (h1 : strLe a b = true)
    (h2 : strLe b c = true) : strLe a c = true :=
  listLe_trans h1 h2

theorem strLe_antisymm : ∀ {a b : String},
    strLe a b = true → strLe b a = true → a = b
  | ⟨_⟩, ⟨_⟩, h1, h2 => congrArg String.mk (listLe_antisymm h1 h2)

instance : IsTotal String strLeP := ⟨strLe_total⟩

instance : IsTrans String strLeP := ⟨fun _ _ _ => strLe_trans⟩

instance : IsAntisymm String strLeP := ⟨fun _ _ => strLe_antisymm⟩

theorem optStrLe_total : ∀ x y : Option String,
    optStrLe x y = true ∨ optStrLe y x = true
  | none, _ => Or.inl rfl
  | some _, none => Or.inr rfl
  | some a, some b => strLe_total a b

theorem optStrLe_trans : ∀ {x y z : Option String},
    optStrLe x y = true → optStrLe y z = true → optStrLe x z = true
  | none, _, _, _, _ => rfl
  | some _, none, _, h, _ => by simp [optStrLe] at h
  | some _, some _, none, _, h => by simp [optStrLe] at h
  | some _, some _, some _, h1, h2 => strLe_trans h1 h2

theorem optStrLe_antisymm : ∀ {x y : Option String},
    optStrLe x y = true → optStrLe y x = true → x = y
  | none, none, _, _ => rfl
  | none, some _, _, h => by simp [optStrLe] at h
  | some _, none, h, _ => by simp [optStrLe] at h
  | some a, some b, h1, h2 => congrArg some (strLe_antisymm h1 h2)

theorem lexPairLe_total {β : Type} (le2 : β → β → Bool)
    (h2 : ∀ x y, le2 x y = true ∨ le2 y x = true) (p q : String × β) :
    lexPairLe le2 p q = true ∨ lexPairLe le2 q p = true := by
  by_cases hab : p.1 = q.1
  · simp only [lexPairLe, if_pos hab, if_pos hab.symm]
    exact h2 p.2 q.2
  · simp only [lexPairLe, if_neg hab, if_neg (Ne.symm hab)]
    exact strLe_total p.1 q.1

theorem lexPairLe_trans {β : Type} (le2 : β → β → Bool)
    (h2 : ∀ {x y z}, le2 x y = true → le2 y z = true → le2 x z = true)
    {p q r : String × β} (h1 : lexPairLe le2 p q = true)
    (hqr : lexPairLe le2 q r = true) : lexPairLe le2 p r = true := by
  by_cases hab : p.1 = q.1 <;> by_cases hbc : q.1 = r.1
  · simp only [lexPairLe, if_pos hab] at h1
    simp only [lexPairLe, if_pos hbc] at hqr
    simp only [lexPairLe, if_pos (hab.trans hbc)]
    exact h2 h1 hqr
  · simp only [lexPairLe, if_neg hbc] at hqr
    have hpr : p.1 ≠ r.1 := hab ▸ hbc
    simp only [lexPairLe, if_neg hpr]
    rw [hab]
    exact hqr
  · simp only [lexPairLe, if_neg hab] at h1
    have hpr : p.1 ≠ r.1 := fun h => hab (h.trans hbc.symm)
    simp only [lexPairLe, if_neg hpr]
    rw [hbc] at h1
    exact h1
  · simp only [lexPairLe, if_neg hab] at h1
    simp only [lexPairLe, if_neg hbc] at hqr
    have hac : p.1 ≠ r.1 := by
      intro h
      exact hab (strLe_antisymm h1 (h ▸ hqr))
    simp only [lexPairLe, if_neg hac]
    exact strLe_trans h1 hqr

theorem lexPairLe_antisymm {β : Type} (le2 : β → β → Bool)
    (h2 : ∀ {x y}, le2 x y = true → le2 y x = true → x = y)
    {p q : String × β} (h1 : lexPairLe le2 p q = true)
    (hqp : lexPairLe le2 q p = true) : p = q := by
  by_cases hab : p.1 = q.1
  · simp only [lexPairLe, if_pos hab, if_pos hab.symm] at h1 hqp
    exact Prod.ext hab (h2 h1 hqp)
  · simp only [lexPairLe, if_neg hab, if_neg (Ne.symm hab)] at h1 hqp
    exact absurd (strLe_antisymm h1 hqp) hab

instance : IsTotal (String × Option String) pairLeP :=
  ⟨lexPairLe_total optStrLe optStrLe_total⟩

instance : IsTrans (String × Option String) pairLeP :=
  ⟨fun _ _ _ => lexPairLe_trans optStrLe (fun h h' => optStrLe_trans h h')⟩

instance : IsAntisymm (String × Option String) pairLeP :=
  ⟨fun _ _ => lexPairLe_antisymm optStrLe (fun h h' => optStrLe_antisymm h h')⟩

instance : IsTotal (String × String) envPairLeP :=
  ⟨lexPairLe_total strLe strLe_total⟩

instance : IsTrans (String × String) envPairLeP :=
  ⟨fun _ _ _ => lexPairLe_trans strLe (fun h h' => strLe_trans h h')⟩

instance : IsAntisymm (String × String) envPairLeP :=
  ⟨fun _ _ => lexPairLe_antisymm strLe (fun h h' => strLe_antisymm h h')⟩

/-- Under a total, transitive, antisymmetric order the sorted permutation
is unique: sorting two permutations of each other gives the same list. -/
theorem insertionSort_eq_of_perm {α : Type} (r : α → α → Prop) [DecidableRel r]
    [IsTotal α r] [IsTrans α r] [IsAntisymm α r] {l₁ l₂ : List α}
    (h : l₁.Perm l₂) : l₁.insertionSort r = l₂.insertionSort r :=
  List.eq_of_perm_of_sorted
    ((List.perm_insertionSort r l₁).trans (h.trans (List.perm_insertionSort r l₂).symm))
    (List.sorted_insertionSort r l₁) (List.sorted_insertionSort r l₂)

/-! ## Inversion lemmas for the parser -/

/-- Shape of a successful `parse_arguments`: the scan succeeded and
`finishParse` accepted its state. -/
theorem parse_ok_inv {args : List String} {pa : ParsedArguments}
    (h : parse_arguments args = .Ok pa) :
    ∃ st, scanLoop {} (argsIter args) = .ok st ∧
      finishParse (argsIter args) st = .Ok pa := by
  unfold parse_arguments at h
  cases hs : scanLoop {} (argsIter args) with
  | ok st => exact ⟨st, rfl, by simpa only [hs] using h⟩
  | error e => simp only [hs] at h; cases e <;> simp at h

/-- `finishParse` on a state with no input file. -/
theorem finishParse_missing_input {pairs : List (String × Option String)}
    {st : ScanState} (hi : st.input = none) :
    finishParse pairs st = .CannotCache "missing input" := by
  unfold finishParse; rw [hi]

/-- `finishParse` on a state with an input but no output directory. -/
theorem finishParse_missing_output_dir {pairs : List (String × Option String)}
    {st : ScanState} {inp : String} (hi : st.input = some inp)
    (ho : st.output_dir = none) :
    finishParse pairs st = .CannotCache "missing output_dir" := by
  unfold finishParse; rw [hi, ho]

/-- `finishParse` on a state missing only the emit set (and beyond). -/
theorem finishParse_missing_emit {pairs : List (String × Option String)}
    {st : ScanState} {inp od : String} (hi : st.input = some inp)
    (ho : st.output_dir = some od) (he : st.emit = none) :
    finishParse pairs st = .CannotCache "missing emit" := by
  unfold finishParse; rw [hi, ho, he]

/-- `finishParse` on a state missing only the crate name. -/
theorem finishParse_missing_crate_name {pairs : List (String × Option String)}
    {st : ScanState} {inp od : String} {es : List String}
    (hi : st.input = some inp) (ho : st.output_dir = some od)
    (he : st.emit = some es) (hc : st.crate_name = none) :
    finishParse pairs st = .CannotCache "missing crate_name" := by
  unfold finishParse; rw [hi, ho, he, hc]

/-- `finishParse` when every required field is present: only the emit
gates remain. -/
theorem finishParse_all_fields {pairs : List (String × Option String)}
    {st : ScanState} {inp od cn : String} {es : List String}
    (hi : st.input = some inp) (ho : st.output_dir = some od)
    (he : st.emit = some es) (hc : st.crate_name = some cn) :
    finishParse pairs st =
      (if (!es.isEmpty && !es.contains "link") = true then .NotCompilation
       else if unionCard es ALLOWED_EMIT > ALLOWED_EMIT.length then
         .CannotCache "unsupported --emit"
       else .Ok { arguments := pairs, output_dir := od,
                  externs := sortStrings st.externs, crate_name := cn,
                  dep_info := if es.contains "dep-info" then
                    some (cn ++ st.extra_filename.getD "" ++ ".d") else none }) := by
  unfold finishParse; rw [hi, ho, he, hc]

/-- Inversion of a successful `finishParse`: all required fields were
present, both emit gates passed, and the fields of the result. -/
theorem finishParse_ok_inv {pairs : List (String × Option String)}
    {st : ScanState} {pa : ParsedArguments}
    (h : finishParse pairs st = .Ok pa) :
    ∃ es od cn, st.emit = some es ∧ st.output_dir = some od ∧
      st.crate_name = some cn ∧
      pa.arguments = pairs ∧ pa.output_dir = od ∧
      pa.externs = sortStrings st.externs ∧ pa.crate_name = cn ∧
      pa.dep_info = (if es.contains "dep-info" then
        some (cn ++ st.extra_filename.getD "" ++ ".d") else none) := by
  cases hi : st.input with
  | none => rw [finishParse_missing_input hi] at h; simp at h
  | some inp =>
  cases ho : st.output_dir with
  | none => rw [finishParse_missing_output_dir hi ho] at h; simp at h
  | some od =>
  cases he : st.emit with
  | none => rw [finishParse_missing_emit hi ho he] at h; simp at h
  | some es =>
  cases hc : st.crate_name with
  | none => rw [finishParse_missing_crate_name hi ho he hc] at h; simp at h
  | some cn =>
  rw [finishParse_all_fields hi ho he hc] at h
  refine ⟨es, od, cn, rfl, rfl, rfl, ?_⟩
  split at h
  · simp at h
  split at h
  · simp at h
  simp only [CompilerArguments.Ok.injEq] at h
  subst h
  simp

/-- The `HashSet` union-cardinality test of the emit gate is exactly
membership: the union is bigger than the allowed set iff some emit kind
falls outside it. -/
theorem unionCard_gt_iff (es : List String) :
    unionCard es ALLOWED_EMIT > ALLOWED_EMIT.length ↔ ∃ e ∈ es, e ∉ ALLOWED_EMIT := by
  have hlen : unionCard es ALLOWED_EMIT =
      (es.toFinset ∪ ALLOWED_EMIT.toFinset).card := by
    rw [unionCard, ← List.card_toFinset, List.toFinset_append]
  have hBcard : (ALLOWED_EMIT.toFinset).card = ALLOWED_EMIT.length := by decide
  rw [hlen, ← hBcard]
  constructor
  · intro hgt
    by_contra hno
    push_neg at hno
    have hsub : es.toFinset ⊆ ALLOWED_EMIT.toFinset := fun x hx =>
      List.mem_toFinset.mpr (hno x (List.mem_toFinset.mp hx))
    rw [Finset.union_eq_right.mpr hsub] at hgt
    exact lt_irrefl _ hgt
  · rintro ⟨e, he, hne⟩
    refine Finset.card_lt_card ?_
    refine (Finset.ssubset_iff_of_subset Finset.subset_union_right).mpr ?_
    exact ⟨e, Finset.mem_union_left _ (List.mem_toFinset.mpr he),
      fun hb => hne (List.mem_toFinset.mp hb)⟩

/-- A successful scan pins `parse_arguments` down to `finishParse`. -/
theorem parse_eq_finish {args : List String} {st : ScanState}
    (hscan : scanLoop {} (argsIter args) = .ok st) :
    parse_arguments args = finishParse (argsIter args) st := by
  unfold parse_arguments; simp only [hscan]

/-- C2: for every argument vector that passes the scan and the
required-field checks, with emit set `es` (the recorded comma-split value
of `--emit`): if `es` is non-empty and lacks `link` the parse is
`NotCompilation`; otherwise any emit kind outside the allowed pair gives
`CannotCache "unsupported --emit"`, and if all kinds are allowed the emit
gate passes and parsing succeeds. -/
theorem emit_gate_classification (args : List String) (st : ScanState)
    (inp od cn : String) (es : List String)
    (hscan : scanLoop {} (argsIter args) = .ok st)
    (hi : st.input = some inp) (ho : st.output_dir = some od)
    (he : st.emit = some es) (hc : st.crate_name = some cn) :
    (es ≠ [] ∧ "link" ∉ es → parse_arguments args = .NotCompilation) ∧
    ((es = [] ∨ "link" ∈ es) →
      ((∃ e ∈ es, e ∉ ALLOWED_EMIT) →
        parse_arguments args = .CannotCache "unsupported --emit") ∧
      ((∀ e ∈ es, e ∈ ALLOWED_EMIT) → ∃ pa, parse_arguments args = .Ok pa)) := by
  rw [parse_eq_finish hscan, finishParse_all_fields hi ho he hc]
  constructor
  · rintro ⟨hne, hnl⟩
    have h1 : (!es.isEmpty && !es.contains "link") = true := by
      simp [hne, hnl]
    rw [if_pos h1]
  · intro hor
    have h1 : ¬ ((!es.isEmpty && !es.contains "link") = true) := by
      rcases hor with h | h <;> simp [h]
    rw [if_neg h1]
    constructor
    · intro hex
      rw [if_pos ((unionCard_gt_iff es).mpr hex)]
    · intro hall
      have h2 : ¬ (unionCard es ALLOWED_EMIT > ALLOWED_EMIT.length) := by
        rw [unionCard_gt_iff es]
        push_neg
        exact hall
      rw [if_neg h2]
      exact ⟨_, rfl⟩

/-- C2 witness: `--emit asm` (no `link`) is `NotCompilation`;
`--emit asm,link` is `CannotCache "unsupported --emit"`; and
`--emit link,dep-info` passes the gate. -/
theorem emit_gate_classification_witness :
    parse_arguments ["--emit", "asm", "foo.rs", "--out-dir", "out",
      "--crate-name", "foo"] = .NotCompilation ∧
    parse_arguments ["--emit", "asm,link", "foo.rs", "--out-dir", "out",
      "--crate-name", "foo"] = .CannotCache "unsupported --emit" ∧
    (∃ pa, parse_arguments ["--emit", "link,dep-info", "foo.rs", "--out-dir",
      "out", "--crate-name", "foo"] = .Ok pa) := by
  refine ⟨?_, ?_, ?_⟩
  · exact (emit_gate_classification
      ["--emit", "asm", "foo.rs", "--out-dir", "out", "--crate-name", "foo"]
      { emit := some ["asm"], input := some "foo.rs", output_dir := some "out",
        crate_name := some "foo", extra_filename := none, externs := [] }
      "foo.rs" "out" "foo" ["asm"] rfl rfl rfl rfl rfl).1
      (by decide)
  · exact ((emit_gate_classification
      ["--emit", "asm,link", "foo.rs", "--out-dir", "out", "--crate-name", "foo"]
      { emit := some ["asm", "link"], input := some "foo.rs",
        output_dir := some "out", crate_name := some "foo",
        extra_filename := none, externs := [] }
      "foo.rs" "out" "foo" ["asm", "link"] rfl rfl rfl rfl rfl).2
      (by decide)).1 (by decide)
  · exact ((emit_gate_classification
      ["--emit", "link,dep-info", "foo.rs", "--out-dir", "out", "--crate-name", "foo"]
      { emit := some ["link", "dep-info"], input := some "foo.rs",
        output_dir := some "out", crate_name := some "foo",
        extra_filename := none, externs := [] }
      "foo.rs" "out" "foo" ["link", "dep-info"] rfl rfl rfl rfl rfl).2
      (by decide)).2 (by decide)

/-- C3: when the scan completes without an early return, a missing
required field yields `CannotCache "missing <field>"` naming the first
missing one, checked in the order input, output_dir, emit, crate_name. -/
theorem missing_field_order (args : List String) (st : ScanState)
    (hscan : scanLoop {} (argsIter args) = .ok st) :
    (st.input = none → parse_arguments args = .CannotCache "missing input") ∧
    (∀ inp, st.input = some inp → st.output_dir = none →
      parse_arguments args = .CannotCache "missing output_dir") ∧
    (∀ inp od, st.input = some inp → st.output_dir = some od →
      st.emit = none → parse_arguments args = .CannotCache "missing emit") ∧
    (∀ inp od es, st.input = some inp → st.output_dir = some od →
      st.emit = some es → st.crate_name = none →
      parse_arguments args = .CannotCache "missing crate_name") := by
  refine ⟨fun hi => ?_, fun inp hi ho => ?_, fun inp od hi ho he => ?_,
    fun inp od es hi ho he hc => ?_⟩
  · rw [parse_eq_finish hscan, finishParse_missing_input hi]
  · rw [parse_eq_finish hscan, finishParse_missing_output_dir hi ho]
  · rw [parse_eq_finish hscan, finishParse_missing_emit hi ho he]
  · rw [parse_eq_finish hscan, finishParse_missing_crate_name hi ho he hc]

/-- C3 witness: each of the four missing-field reports, on concrete
argument vectors. -/
theorem missing_field_order_witness :
    parse_arguments ["--emit", "link", "--out-dir", "out", "--crate-name", "foo"] =
      .CannotCache "missing input" ∧
    parse_arguments ["--emit", "link", "foo.rs", "--crate-name", "foo"] =
      .CannotCache "missing output_dir" ∧
    parse_arguments ["foo.rs", "--out-dir", "out", "--crate-name", "foo"] =
      .CannotCache "missing emit" ∧
    parse_arguments ["--emit", "link", "foo.rs", "--out-dir", "out"] =
      .CannotCache "missing crate_name" := by
  refine ⟨?_, ?_, ?_, ?_⟩
  · exact (missing_field_order
      ["--emit", "link", "--out-dir", "out", "--crate-name", "foo"]
      { emit := some ["link"], input := none, output_dir := some "out",
        crate_name := some "foo", extra_filename := none, externs := [] }
      rfl).1 rfl
  · exact (missing_field_order
      ["--emit", "link", "foo.rs", "--crate-name", "foo"]
      { emit := some ["link"], input := some "foo.rs", output_dir := none,
        crate_name := some "foo", extra_filename := none, externs := [] }
      rfl).2.1 "foo.rs" rfl rfl
  · exact (missing_field_order
      ["foo.rs", "--out-dir", "out", "--crate-name", "foo"]
      { emit := none, input := some "foo.rs", output_dir := some "out",
        crate_name := some "foo", extra_filename := none, externs := [] }
      rfl).2.2.1 "foo.rs" "out" rfl rfl rfl
  · exact (missing_field_order
      ["--emit", "link", "foo.rs", "--out-dir", "out"]
      { emit := some ["link"], input := some "foo.rs", output_dir := some "out",
        crate_name := none, extra_filename := none, externs := [] }
      rfl).2.2.2 "foo.rs" "out" ["link"] rfl rfl rfl rfl

/-- C6: on a successful parse with recorded emit set `es`, the `dep_info`
field is the crate name, then the recorded extra-filename (empty when
absent), then `.d` — exactly when `dep-info` is among the emit kinds, and
absent otherwise. -/
theorem dep_info_synthesis (args : List String) (st : ScanState)
    (es : List String) (pa : ParsedArguments)
    (hscan : scanLoop {} (argsIter args) = .ok st)
    (he : st.emit = some es)
    (hok : parse_arguments args = .Ok pa) :
    ("dep-info" ∈ es →
      pa.dep_info = some (pa.crate_name ++ st.extra_filename.getD "" ++ ".d")) ∧
    ("dep-info" ∉ es → pa.dep_info = none) := by
  obtain ⟨st', hs', hf⟩ := parse_ok_inv hok
  rw [hscan] at hs'
  injection hs' with hst
  subst hst
  obtain ⟨es', od, cn, he', _, _, _, _, _, hcn, hdep⟩ := finishParse_ok_inv hf
  rw [he] at he'
  injection he' with hes
  subst hes
  constructor
  · intro hmem
    rw [hdep, if_pos (by simpa using hmem), hcn]
  · intro hmem
    rw [hdep, if_neg (by simpa using hmem)]

/-- C6 witness: `--emit link,dep-info` with `-C extra-filename=-abcxyz`
gives `my_crate-abcxyz.d`; plain `--emit link` gives no dep-info. -/
theorem dep_info_synthesis_witness :
    (∃ pa, parse_arguments ["--emit", "link,dep-info", "foo.rs", "--out-dir",
        "out", "--crate-name", "my_crate", "-C", "extra-filename=-abcxyz"] =
        .Ok pa ∧ pa.dep_info = some "my_crate-abcxyz.d") ∧
    (∃ pa, parse_arguments ["--emit", "link", "foo.rs", "--out-dir", "out",
        "--crate-name", "foo"] = .Ok pa ∧ pa.dep_info = none) := by
  constructor
  · refine ⟨{ arguments := [("--emit", some "link,dep-info"), ("foo.rs", none),
                ("--out-dir", some "out"), ("--crate-name", some "my_crate"),
                ("-C", some "extra-filename=-abcxyz")],
              output_dir := "out", externs := [], crate_name := "my_crate",
              dep_info := some "my_crate-abcxyz.d" }, by decide, ?_⟩
    exact (dep_info_synthesis
      ["--emit", "link,dep-info", "foo.rs", "--out-dir", "out",
       "--crate-name", "my_crate", "-C", "extra-filename=-abcxyz"]
      { emit := some ["link", "dep-info"], input := some "foo.rs",
        output_dir := some "out", crate_name := some "my_crate",
        extra_filename := some "-abcxyz", externs := [] }
      ["link", "dep-info"] _ rfl rfl (by decide)).1 (by decide)
  · refine ⟨{ arguments := [("--emit", some "link"), ("foo.rs", none),
                ("--out-dir", some "out"), ("--crate-name", some "foo")],
              output_dir := "out", externs := [], crate_name := "foo",
              dep_info := none }, by decide, ?_⟩
    exact (dep_info_synthesis
      ["--emit", "link", "foo.rs", "--out-dir", "out", "--crate-name", "foo"]
      { emit := some ["link"], input := some "foo.rs",
        output_dir := some "out", crate_name := some "foo",
        extra_filename := none, externs := [] }
      ["link"] _ rfl rfl (by decide)).2 (by decide)

/-! ## Key-invariance lemmas -/

/-- The canonical argument blob is unchanged by permutations that move
only sortable (`--extern`, `-L`, `--cfg`) pairs. -/
theorem argsBlob_perm_invariant {l₁ l₂ : List (String × Option String)}
    (hperm : l₁.Perm l₂)
    (hrest : l₁.filter (fun p => !sortableFlag p.1) =
      l₂.filter (fun p => !sortableFlag p.1)) :
    argsBlob l₁ = argsBlob l₂ := by
  have hsort : (l₁.filter (fun p => sortableFlag p.1)).Perm
      (l₂.filter (fun p => sortableFlag p.1)) := hperm.filter _
  simp only [argsBlob, sortPairs]
  rw [hrest, insertionSort_eq_of_perm pairLeP hsort]

/-- C1: with the probe results, file digests and all other inputs held
fixed, permuting only the `--extern`, `-L` and `--cfg` pairs of the parsed
argument-pair list (keeping the relative order of all other pairs) leaves
the cache key unchanged; moreover the extern artifact list of every
successful parse is sorted lexicographically at parse time. -/
theorem key_invariant_under_sortable_permutation :
    (∀ (shlibs : List String) (pa₁ pa₂ : ParsedArguments)
       (source_hashes extern_hashes : List String)
       (env_vars : List (String × String)) (probe : List String),
       pa₁.arguments.Perm pa₂.arguments →
       pa₁.arguments.filter (fun p => !sortableFlag p.1) =
         pa₂.arguments.filter (fun p => !sortableFlag p.1) →
       pa₁.output_dir = pa₂.output_dir → pa₁.dep_info = pa₂.dep_info →
       (generate_hash_key shlibs pa₁ source_hashes extern_hashes env_vars probe).key =
         (generate_hash_key shlibs pa₂ source_hashes extern_hashes env_vars probe).key) ∧
    (∀ args pa, parse_arguments args = .Ok pa → pa.externs.Sorted strLeP) := by
  constructor
  · intro shlibs pa₁ pa₂ src ext env probe hperm hrest _ _
    simp only [generate_hash_key, hashKeyTrace]
    rw [argsBlob_perm_invariant hperm hrest]
  · intro args pa hok
    obtain ⟨st, hs, hf⟩ := parse_ok_inv hok
    obtain ⟨es, od, cn, _, _, _, _, _, hex, _, _⟩ := finishParse_ok_inv hf
    rw [hex]
    exact List.sorted_insertionSort strLeP st.externs

/-- C1 witness: the two cargo-style orderings of the same `--extern`
pairs from the spec's scenario 4 give the same key, and a concrete parse
has its externs sorted. -/
theorem key_invariant_under_sortable_permutation_witness :
    (generate_hash_key ["shlib1"]
      { arguments := [("--emit", some "link"), ("foo.rs", none),
          ("--extern", some "a=a.rlib"), ("--out-dir", some "out"),
          ("--crate-name", some "foo"), ("--extern", some "b=b.rlib")],
        output_dir := "out", externs := ["a.rlib", "b.rlib"],
        crate_name := "foo", dep_info := none }
      ["srchash"] ["ehash1", "ehash2"] [("CARGO_X", "1")] ["foo.rlib"]).key =
    (generate_hash_key ["shlib1"]
      { arguments := [("--extern", some "b=b.rlib"), ("--emit", some "link"),
          ("--extern", some "a=a.rlib"), ("foo.rs", none),
          ("--out-dir", some "out"), ("--crate-name", some "foo")],
        output_dir := "out", externs := ["a.rlib", "b.rlib"],
        crate_name := "foo", dep_info := none }
      ["srchash"] ["ehash1", "ehash2"] [("CARGO_X", "1")] ["foo.rlib"]).key ∧
    (∃ pa, parse_arguments ["--emit", "link", "foo.rs", "--extern", "a=b.rlib",
        "--out-dir", "out", "--crate-name", "foo", "--extern", "b=a.rlib"] =
        .Ok pa ∧ pa.externs.Sorted strLeP) := by
  constructor
  · exact key_invariant_under_sortable_permutation.1 ["shlib1"] _ _
      ["srchash"] ["ehash1", "ehash2"] [("CARGO_X", "1")] ["foo.rlib"]
      (by decide) (by decide) rfl rfl
  · exact ⟨{ arguments := [("--emit", some "link"), ("foo.rs", none),
               ("--extern", some "a=b.rlib"), ("--out-dir", some "out"),
               ("--crate-name", some "foo"), ("--extern", some "b=a.rlib")],
             output_dir := "out", externs := ["a.rlib", "b.rlib"],
             crate_name := "foo", dep_info := none }, by decide,
      key_invariant_under_sortable_permutation.2
        ["--emit", "link", "foo.rs", "--extern", "a=b.rlib", "--out-dir",
         "out", "--crate-name", "foo", "--extern", "b=a.rlib"] _ (by decide)⟩

/-- Conditional flat-mapping equals flat-mapping over the filter. -/
theorem flatMap_guard_filter {α β : Type} (p : α → Bool) (f : α → List β) :
    ∀ l : List α,
      (l.flatMap fun x => if p x then f x else []) = (l.filter p).flatMap f
  | [] => rfl
  | x :: xs => by
    by_cases h : p x <;>
      simp [List.flatMap_cons, List.filter_cons, h, flatMap_guard_filter p f xs]

/-- Filtering after sorting the environment equals sorting the filtered
environment. -/
theorem filter_sortEnv (env : List (String × String)) :
    (sortEnv env).filter cargoVar = sortEnv (env.filter cargoVar) := by
  apply List.eq_of_perm_of_sorted (r := envPairLeP)
  · exact ((List.perm_insertionSort _ env).filter _).trans
      (List.perm_insertionSort _ _).symm
  · exact (List.sorted_insertionSort _ env).filter _
  · exact List.sorted_insertionSort _ _

/-- The environment slice of the key trace is determined by the sorted
`CARGO_`-filtered environment. -/
theorem envTrace_eq (env : List (String × String)) :
    envTrace env = (sortEnv (env.filter cargoVar)).flatMap (fun p => [p.1, "=", p.2]) := by
  unfold envTrace
  rw [flatMap_guard_filter cargoVar _ (sortEnv env), filter_sortEnv]

/-- C8: two environment vectors with the same multiset of `CARGO_`-named
pairs produce the same cache key, all other inputs held fixed; the
qualifying pairs enter the digest sorted, as name, `=`, value, and all
other variables are ignored. -/
theorem key_ignores_non_cargo_env :
    (∀ (shlibs : List String) (pa : ParsedArguments)
       (source_hashes extern_hashes : List String)
       (env₁ env₂ : List (String × String)) (probe : List String),
       (env₁.filter cargoVar).Perm (env₂.filter cargoVar) →
       (generate_hash_key shlibs pa source_hashes extern_hashes env₁ probe).key =
         (generate_hash_key shlibs pa source_hashes extern_hashes env₂ probe).key) ∧
    (∀ env, envTrace env =
      ((env.filter cargoVar).insertionSort envPairLeP).flatMap
        (fun p => [p.1, "=", p.2])) := by
  constructor
  · intro shlibs pa src ext env₁ env₂ probe hperm
    simp only [generate_hash_key, hashKeyTrace]
    rw [envTrace_eq env₁, envTrace_eq env₂]
    unfold sortEnv
    rw [insertionSort_eq_of_perm envPairLeP hperm]
  · intro env
    rw [envTrace_eq]
    rfl

/-- C8 witness: replacing `FOO=bar` by `PATH=/bin` and reordering leaves
the key unchanged; the trace of a concrete environment is its sorted
`CARGO_` pairs. -/
theorem key_ignores_non_cargo_env_witness :
    (generate_hash_key []
      { arguments := [("foo.rs", none)], output_dir := "out", externs := [],
        crate_name := "foo", dep_info := none }
      [] [] [("CARGO_PKG_NAME", "foo"), ("FOO", "bar"), ("CARGO_BLAH", "abc")]
      []).key =
    (generate_hash_key []
      { arguments := [("foo.rs", none)], output_dir := "out", externs := [],
        crate_name := "foo", dep_info := none }
      [] [] [("CARGO_BLAH", "abc"), ("PATH", "/bin"), ("CARGO_PKG_NAME", "foo")]
      []).key ∧
    envTrace [("CARGO_PKG_NAME", "foo"), ("FOO", "bar"), ("CARGO_BLAH", "abc")] =
      ["CARGO_BLAH", "=", "abc", "CARGO_PKG_NAME", "=", "foo"] := by
  constructor
  · exact key_ignores_non_cargo_env.1 [] _ [] []
      [("CARGO_PKG_NAME", "foo"), ("FOO", "bar"), ("CARGO_BLAH", "abc")]
      [("CARGO_BLAH", "abc"), ("PATH", "/bin"), ("CARGO_PKG_NAME", "foo")]
      [] (by decide)
  · decide

/-! ## Outputs-map lemmas -/

/-- Lookup on a cons cell of the association-list map. -/
theorem lookupOutput_cons (a : String × String) (t : List (String × String))
    (k : String) :
    lookupOutput (a :: t) k = if a.1 = k then some a.2 else lookupOutput t k := by
  by_cases h : a.1 = k <;> simp [lookupOutput, List.find?_cons, h]

/-- Overwriting entries of a foreign key is invisible to lookups of other
keys. -/
theorem lookup_map_overwrite_ne (k v k' : String) (h : k' ≠ k) :
    ∀ t : List (String × String),
      lookupOutput (t.map (fun p => if p.1 == k then (k, v) else p)) k' =
        lookupOutput t k'
  | [] => rfl
  | a :: t => by
    rw [List.map_cons]
    by_cases hak : a.1 = k
    · have h1 : (if (a.1 == k) = true then (k, v) else a) = (k, v) := by
        simp [hak]
      have ha' : ¬ a.1 = k' := by rw [hak]; exact Ne.symm h
      rw [h1, lookupOutput_cons, lookupOutput_cons,
        if_neg (show ¬ (k, v).1 = k' from Ne.symm h), if_neg ha']
      exact lookup_map_overwrite_ne k v k' h t
    · have h1 : (if (a.1 == k) = true then (k, v) else a) = a := by
        simp [hak]
      rw [h1, lookupOutput_cons, lookupOutput_cons]
      by_cases ha' : a.1 = k'
      · rw [if_pos ha', if_pos ha']
      · rw [if_neg ha', if_neg ha']
        exact lookup_map_overwrite_ne k v k' h t

/-- After overwriting, a key that was present maps to the new value. -/
theorem lookup_map_overwrite_hit (k v : String) :
    ∀ t : List (String × String), t.any (fun p => p.1 == k) = true →
      lookupOutput (t.map (fun p => if p.1 == k then (k, v) else p)) k = some v
  | a :: t, hany => by
    rw [List.map_cons]
    by_cases hak : a.1 = k
    · have h1 : (if (a.1 == k) = true then (k, v) else a) = (k, v) := by
        simp [hak]
      rw [h1, lookupOutput_cons, if_pos rfl]
    · have h1 : (if (a.1 == k) = true then (k, v) else a) = a := by
        simp [hak]
      have hany' : t.any (fun p => p.1 == k) = true := by
        simpa [List.any_cons, hak] using hany
      rw [h1, lookupOutput_cons, if_neg hak]
      exact lookup_map_overwrite_hit k v t hany'

/-- Appending a fresh key is invisible except at that key. -/
theorem lookup_append_fresh (k v k' : String) :
    ∀ t : List (String × String), t.any (fun p => p.1 == k) = false →
      lookupOutput (t ++ [(k, v)]) k' =
        (if k' = k then some v else lookupOutput t k')
  | [], _ => by
    rw [List.nil_append, lookupOutput_cons]
    by_cases h : k' = k
    · rw [h]
    · rw [if_neg (show ¬ (k, v).1 = k' from Ne.symm h), if_neg h]
  | a :: t, hany => by
    have hak : ¬ a.1 = k := by
      intro hh
      simp [List.any_cons, hh] at hany
    have hany' : t.any (fun p => p.1 == k) = false := by
      simpa [List.any_cons, hak] using hany
    rw [List.cons_append, lookupOutput_cons, lookupOutput_cons]
    by_cases ha' : a.1 = k'
    · have hk : ¬ k' = k := fun hh => hak (ha'.trans hh)
      rw [if_pos ha', if_neg hk, if_pos ha']
    · rw [if_neg ha', if_neg ha']
      exact lookup_append_fresh k v k' t hany'

/-- `HashMap::insert` semantics of `insertOutput` under lookup. -/
theorem lookup_insertOutput (m : List (String × String)) (k v k' : String) :
    lookupOutput (insertOutput m k v) k' =
      if k' = k then some v else lookupOutput m k' := by
  unfold insertOutput
  cases hany : m.any (fun p => p.1 == k) with
  | true =>
    rw [if_pos rfl]
    by_cases hk : k' = k
    · rw [if_pos hk, hk]
      exact lookup_map_overwrite_hit k v m hany
    · rw [if_neg hk, lookup_map_overwrite_ne k v k' hk m]
  | false =>
    rw [if_neg (by simp), lookup_append_fresh k v k' m hany]

/-- The folded probe insertions: a key maps to the joined path iff it was
reported, otherwise the base map decides. -/
theorem lookup_fold_insert (dir : String) :
    ∀ (probe : List String) (m : List (String × String)) (k : String),
      lookupOutput (probe.foldl (fun m o => insertOutput m o (pathJoin dir o)) m) k =
        (if k ∈ probe then some (pathJoin dir k) else lookupOutput m k)
  | [], m, k => by simp
  | o :: probe, m, k => by
    rw [List.foldl_cons, lookup_fold_insert dir probe _ k]
    by_cases hk : k ∈ probe
    · simp [hk, List.mem_cons]
    · by_cases hko : k = o
      · subst hko
        simp [hk, lookup_insertOutput]
      · simp [hk, hko, lookup_insertOutput]

/-- C9: in the outputs map, every basename reported by the file-name-print
probe maps to the output directory joined with it; the synthesized
dep-info filename is inserted last, so it maps to the output directory
joined with the dep-info filename even when the probe reported the same
basename; nothing else is in the map. -/
theorem outputs_map_characterization (probe : List String) (dir : String)
    (dep : Option String) (k : String) :
    ((k ∈ probe ∨ dep = some k) →
      lookupOutput (buildOutputs probe dir dep) k = some (pathJoin dir k)) ∧
    (k ∉ probe → dep ≠ some k →
      lookupOutput (buildOutputs probe dir dep) k = none) := by
  simp only [buildOutputs]
  cases dep with
  | none =>
    rw [lookup_fold_insert dir probe [] k]
    constructor
    · rintro (hin | hdep)
      · rw [if_pos hin]
      · cases hdep
    · intro hnin _
      rw [if_neg hnin]
      rfl
  | some d =>
    rw [lookup_insertOutput, lookup_fold_insert dir probe [] k]
    constructor
    · rintro (hin | hdep)
      · by_cases hkd : k = d
        · subst hkd; rw [if_pos rfl]
        · rw [if_neg hkd, if_pos hin]
      · injection hdep with hdep
        subst hdep
        rw [if_pos rfl]
    · intro hnin hdep
      have hkd : ¬ k = d := fun h => hdep (by rw [h])
      rw [if_neg hkd, if_neg hnin]
      rfl

/-- C9 witness: with probe `foo.rlib, foo.d`, output dir `out` and
dep-info `foo.d`, the dep-info basename maps to `out/foo.d`, the probe
basename to `out/foo.rlib`, and an unreported basename to nothing. -/
theorem outputs_map_characterization_witness :
    lookupOutput (buildOutputs ["foo.rlib", "foo.d"] "out" (some "foo.d")) "foo.d" =
      some "out/foo.d" ∧
    lookupOutput (buildOutputs ["foo.rlib", "foo.d"] "out" (some "foo.d")) "foo.rlib" =
      some "out/foo.rlib" ∧
    lookupOutput (buildOutputs ["foo.rlib", "foo.d"] "out" (some "foo.d")) "bar" =
      none := by
  refine ⟨?_, ?_, ?_⟩
  · have h := (outputs_map_characterization ["foo.rlib", "foo.d"] "out"
      (some "foo.d") "foo.d").1 (Or.inr rfl)
    rwa [show pathJoin "out" "foo.d" = "out/foo.d" from by decide] at h
  · have h := (outputs_map_characterization ["foo.rlib", "foo.d"] "out"
      (some "foo.d") "foo.rlib").1 (Or.inl (by decide))
    rwa [show pathJoin "out" "foo.rlib" = "out/foo.rlib" from by decide] at h
  · exact (outputs_map_characterization ["foo.rlib", "foo.d"] "out"
      (some "foo.d") "bar").2 (by decide) (by decide)

/-! ## Last-assignment semantics of the scan -/

/-- A successful scan step assigns `output_dir` and `crate_name` exactly
from `--out-dir` and `--crate-name` pairs, leaving them alone otherwise. -/
theorem scanStep_ok_fields {st st' : ScanState} {p : String × Option String}
    (h : scanStep st p = .ok st') :
    st'.output_dir = (if p.1 = "--out-dir" then p.2 else st.output_dir) ∧
    st'.crate_name = (if p.1 = "--crate-name" then p.2 else st.crate_name) := by
  obtain ⟨arg, val⟩ := p
  by_cases h1 : arg = "--help"
  · simp [scanStep, h1] at h
  by_cases h2 : arg = "-V"
  · simp [scanStep, h2] at h
  by_cases h3 : arg = "--version"
  · simp [scanStep, h3] at h
  by_cases h4 : arg = "--print"
  · simp [scanStep, h4] at h
  by_cases h5 : arg = "--explain"
  · simp [scanStep, h5] at h
  by_cases h6 : arg = "--pretty"
  · simp [scanStep, h6] at h
  by_cases h7 : arg = "--unpretty"
  · simp [scanStep, h7] at h
  by_cases h8 : arg = "-o"
  · simp [scanStep, h8] at h
  by_cases h9 : arg = "-l"
  · simp [scanStep, h9] at h
  by_cases h10 : arg = "--emit"
  · by_cases hs : st.emit.isSome
    · simp [scanStep, h10, hs] at h
    · simp [scanStep, h10, hs] at h
      subst h
      simp [h10]
  by_cases h11 : arg = "--crate-type"
  · cases val with
    | none =>
      simp [scanStep, h11] at h
      subst h
      simp [h11]
    | some v =>
      by_cases hct : ∃ x ∈ splitComma v, (x ≠ "lib" ∧ x ≠ "rlib") ∧ x ≠ "staticlib"
      · simp [scanStep, h11, hct] at h
      · simp [scanStep, h11, hct] at h
        subst h
        simp [h11]
  by_cases h12 : arg = "--out-dir"
  · simp [scanStep, h12] at h
    subst h
    simp [h12]
  by_cases h13 : arg = "--crate-name"
  · simp [scanStep, h13] at h
    subst h
    simp [h13]
  by_cases h14 : arg = "--extern"
  · cases val with
    | none =>
      simp [scanStep, h14] at h
      subst h
      simp [h14]
    | some v =>
      cases hfe : findEq v with
      | none =>
        simp [scanStep, h14, hfe] at h
        subst h
        simp [h14]
      | some pr =>
        obtain ⟨x, cf⟩ := pr
        simp [scanStep, h14, hfe] at h
        subst h
        simp [h14]
  by_cases h15 : arg = "-C"
  · cases val with
    | none =>
      simp [scanStep, h15] at h
      subst h
      simp [h15]
    | some v =>
      cases hfe : findEq v with
      | none =>
        simp [scanStep, h15, hfe] at h
        subst h
        simp [h15]
      | some pr =>
        obtain ⟨x, cf⟩ := pr
        by_cases hx : x = "extra-filename"
        · simp [scanStep, h15, hfe, hx] at h
          subst h
          simp [h15]
        · simp [scanStep, h15, hfe, hx] at h
          subst h
          simp [h15]
  by_cases h16 : arg = "--codegen"
  · cases val with
    | none =>
      simp [scanStep, h16] at h
      subst h
      simp [h16]
    | some v =>
      cases hfe : findEq v with
      | none =>
        simp [scanStep, h16, hfe] at h
        subst h
        simp [h16]
      | some pr =>
        obtain ⟨x, cf⟩ := pr
        by_cases hx : x = "extra-filename"
        · simp [scanStep, h16, hfe, hx] at h
          subst h
          simp [h16]
        · simp [scanStep, h16, hfe, hx] at h
          subst h
          simp [h16]
  by_cases h17 : arg = "-"
  · simp [scanStep, h17] at h
  by_cases h18 : strStartsWith arg "-" = true
  · simp [scanStep, h1, h2, h3, h4, h5, h6, h7, h8, h9, h10, h11, h12, h13,
      h14, h15, h16, h17, h18] at h
    subst h
    simp [h12, h13]
  · by_cases hinp : st.input.isSome
    · simp [scanStep, h1, h2, h3, h4, h5, h6, h7, h8, h9, h10, h11, h12, h13,
        h14, h15, h16, h17, h18, hinp] at h
    · simp [scanStep, h1, h2, h3, h4, h5, h6, h7, h8, h9, h10, h11, h12, h13,
        h14, h15, h16, h17, h18, hinp] at h
      subst h
      simp [h12, h13]

/-- The value recorded by repeated re-assignment over the pair list: the
last occurrence of `flag` wins (and `none` without any occurrence). -/
def lastVal (flag : String) (pairs : List (String × Option String)) :
    Option String :=
  pairs.foldl (fun acc p => if p.1 = flag then p.2 else acc) none

/-- A completed scan holds, in `output_dir` and `crate_name`, the value of
the last corresponding flag occurrence, starting from the initial state. -/
theorem scanLoop_last_assignment :
    ∀ (pairs : List (String × Option String)) (st0 st : ScanState),
      scanLoop st0 pairs = .ok st →
      st.output_dir = pairs.foldl
        (fun acc p => if p.1 = "--out-dir" then p.2 else acc) st0.output_dir ∧
      st.crate_name = pairs.foldl
        (fun acc p => if p.1 = "--crate-name" then p.2 else acc) st0.crate_name
  | [], st0, st, h => by
    injection h with h2
    subst h2
    exact ⟨rfl, rfl⟩
  | p :: rest, st0, st, h => by
    unfold scanLoop at h
    cases hstep : scanStep st0 p with
    | error e => rw [hstep] at h; simp at h
    | ok st1 =>
      rw [hstep] at h
      obtain ⟨ho1, hc1⟩ := scanStep_ok_fields hstep
      obtain ⟨ho2, hc2⟩ := scanLoop_last_assignment rest st1 st h
      rw [List.foldl_cons, List.foldl_cons]
      exact ⟨by rw [ho2, ho1], by rw [hc2, hc1]⟩

/-- C10: multiple `--out-dir` or `--crate-name` occurrences are not
rejected; the scan records the value of the last occurrence of each (a
valueless last occurrence counts as missing), and a successful parse's
output directory and crate name come from those final occurrences. -/
theorem last_occurrence_wins (args : List String) (st : ScanState)
    (hscan : scanLoop {} (argsIter args) = .ok st) :
    (st.output_dir = lastVal "--out-dir" (argsIter args) ∧
     st.crate_name = lastVal "--crate-name" (argsIter args)) ∧
    (∀ pa, parse_arguments args = .Ok pa →
      lastVal "--out-dir" (argsIter args) = some pa.output_dir ∧
      lastVal "--crate-name" (argsIter args) = some pa.crate_name) := by
  obtain ⟨ho, hc⟩ := scanLoop_last_assignment (argsIter args) {} st hscan
  refine ⟨⟨ho, hc⟩, ?_⟩
  intro pa hok
  obtain ⟨st', hs', hf⟩ := parse_ok_inv hok
  rw [hscan] at hs'
  injection hs' with he
  subst he
  obtain ⟨es, od, cn, hemit, hsod, hscn, hargs, hpaod, hpaex, hpacn, hdep⟩ :=
    finishParse_ok_inv hf
  constructor
  · rw [lastVal, ← ho, hsod, hpaod]
  · rw [lastVal, ← hc, hscn, hpacn]

/-- C10 witness: duplicated `--out-dir` and `--crate-name` parse
successfully, and the final occurrences (`b`, `y`) win. -/
theorem last_occurrence_wins_witness :
    (∃ pa, parse_arguments ["--out-dir", "a", "--crate-name", "x", "--emit",
        "link", "f.rs", "--out-dir", "b", "--crate-name", "y"] = .Ok pa ∧
      lastVal "--out-dir" (argsIter ["--out-dir", "a", "--crate-name", "x",
        "--emit", "link", "f.rs", "--out-dir", "b", "--crate-name", "y"]) =
        some pa.output_dir ∧
      lastVal "--crate-name" (argsIter ["--out-dir", "a", "--crate-name", "x",
        "--emit", "link", "f.rs", "--out-dir", "b", "--crate-name", "y"]) =
        some pa.crate_name ∧
      pa.output_dir = "b" ∧ pa.crate_name = "y") := by
  refine ⟨{ arguments := [("--out-dir", some "a"), ("--crate-name", some "x"),
              ("--emit", some "link"), ("f.rs", none), ("--out-dir", some "b"),
              ("--crate-name", some "y")],
            output_dir := "b", externs := [], crate_name := "y",
            dep_info := none }, by decide, ?_, ?_, rfl, rfl⟩
  · exact ((last_occurrence_wins
      ["--out-dir", "a", "--crate-name", "x", "--emit", "link", "f.rs",
       "--out-dir", "b", "--crate-name", "y"]
      { emit := some ["link"], input := some "f.rs", output_dir := some "b",
        crate_name := some "y", extra_filename := none, externs := [] }
      rfl).2 _ (by decide)).1
  · exact ((last_occurrence_wins
      ["--out-dir", "a", "--crate-name", "x", "--emit", "link", "f.rs",
       "--out-dir", "b", "--crate-name", "y"]
      { emit := some ["link"], input := some "f.rs", output_dir := some "b",
        crate_name := some "y", extra_filename := none, externs := [] }
      rfl).2 _ (by decide)).2

/-! ## Dep-info parsing characterization -/

/-- The spec's token pipeline for the dependency field: split on ASCII
space, trim each token, discard empties, join each onto `cwd`. -/
def depTokens (fld : List Char) (cwd : String) : List String :=
  (((splitCh ' ' fld).map (fun s => String.mk (trimChars s))).filter
      (fun s => s != "")).map (fun s => pathJoin cwd s)

/-- C5: `parse_dep_info` returns the empty list when the text has no first
line or the first line has no colon-space; otherwise it returns the
sorted-lexicographically permutation of the dependency-field tokens (split
on space, trimmed, empties dropped, joined onto `cwd`); and only the first
line ever matters. -/
theorem parse_dep_info_characterization (text cwd : String) :
    (firstLine text = none → parse_dep_info text cwd = []) ∧
    (∀ l, firstLine text = some l → afterColonSpace l.data = none →
      parse_dep_info text cwd = []) ∧
    (∀ l fld, firstLine text = some l → afterColonSpace l.data = some fld →
      (parse_dep_info text cwd).Perm (depTokens fld cwd) ∧
      List.Sorted strLeP (parse_dep_info text cwd)) ∧
    (∀ text2, firstLine text2 = firstLine text →
      parse_dep_info text2 cwd = parse_dep_info text cwd) := by
  refine ⟨?_, ?_, ?_, ?_⟩
  · intro h
    unfold parse_dep_info
    rw [h]
  · intro l h1 h2
    unfold parse_dep_info
    simp only [h1, h2]
  · intro l fld h1 h2
    unfold parse_dep_info
    simp only [h1, h2]
    exact ⟨List.perm_insertionSort _ _, List.sorted_insertionSort _ _⟩
  · intro t2 h
    unfold parse_dep_info
    rw [h]

/-- C5 witness: the spec's dep-info scenario, with `cwd = "foo/"`. -/
theorem parse_dep_info_characterization_witness :
    (parse_dep_info "foo: baz.rs abc.rs bar.rs\n\nbaz.rs:\n\nabc.rs:\n\nbar.rs:\n"
        "foo/").Perm
      (depTokens ("baz.rs abc.rs bar.rs" : String).data "foo/") ∧
    List.Sorted strLeP
      (parse_dep_info "foo: baz.rs abc.rs bar.rs\n\nbaz.rs:\n\nabc.rs:\n\nbar.rs:\n"
        "foo/") ∧
    parse_dep_info "" "foo/" = [] := by
  refine ⟨?_, ?_, ?_⟩
  · exact ((parse_dep_info_characterization
      "foo: baz.rs abc.rs bar.rs\n\nbaz.rs:\n\nabc.rs:\n\nbar.rs:\n" "foo/").2.2.1
      "foo: baz.rs abc.rs bar.rs" ("baz.rs abc.rs bar.rs" : String).data
      (by decide) (by decide)).1
  · exact ((parse_dep_info_characterization
      "foo: baz.rs abc.rs bar.rs\n\nbaz.rs:\n\nabc.rs:\n\nbar.rs:\n" "foo/").2.2.1
      "foo: baz.rs abc.rs bar.rs" ("baz.rs abc.rs bar.rs" : String).data
      (by decide) (by decide)).2
  · exact (parse_dep_info_characterization "" "foo/").1 (by decide)

/-! ## File-name-print output lines -/

/-- A non-empty `dropWhile` residue is shorter than the original list. -/
theorem dropWhile_cons_length (p : Char → Bool) (l : List Char) (x : Char)
    (rest : List Char) (h : l.dropWhile p = x :: rest) :
    rest.length < l.length := by
  have h2 : (l.dropWhile p).length ≤ l.length :=
    (List.dropWhile_sublist p).length_le
  rw [h] at h2
  simp only [List.length_cons] at h2
  omega

/-- `splitCh` never returns an empty list of pieces. -/
theorem splitCh_ne_nil (c : Char) : ∀ l : List Char, splitCh c l ≠ []
  | [] => by simp [splitCh]
  | x :: xs => by
    unfold splitCh
    by_cases h : x = c
    · simp [h]
    · simp only [h, if_false]
      cases hs : splitCh c xs with
      | nil => simp
      | cons a t => simp

/-- A list without the separator is one single piece. -/
theorem splitCh_no_sep (c : Char) : ∀ l : List Char,
    l.dropWhile (fun y => y != c) = [] → splitCh c l = [l]
  | [], _ => rfl
  | y :: ys, h => by
    have hy : (y != c) = true := by
      by_contra hcon
      rw [List.dropWhile_cons, if_neg hcon] at h
      simp at h
    rw [List.dropWhile_cons, if_pos hy] at h
    have ih := splitCh_no_sep c ys h
    conv_lhs => rw [splitCh.eq_2]
    have hyy : ¬ y = c := by simpa using hy
    rw [if_neg hyy, ih]

/-- `splitCh` peels off the longest separator-free prefix and recurses
past the first separator. -/
theorem splitCh_cons_sep (c : Char) :
    ∀ (l : List Char) (x : Char) (rest : List Char),
      l.dropWhile (fun y => y != c) = x :: rest →
      splitCh c l = l.takeWhile (fun y => y != c) :: splitCh c rest
  | [], x, rest, h => by simp at h
  | y :: ys, x, rest, h => by
    by_cases hy : y = c
    · subst hy
      rw [List.dropWhile_cons, if_neg (by simp)] at h
      injection h with h1 h2
      subst h2
      rw [List.takeWhile_cons, if_neg (by simp)]
      conv_lhs => rw [splitCh.eq_2]
      rw [if_pos rfl]
    · have hx : (y != c) = true := by simp [hy]
      rw [List.dropWhile_cons, if_pos hx] at h
      have ih := splitCh_cons_sep c ys x rest h
      obtain ⟨tw0, R, hR⟩ := List.exists_cons_of_ne_nil (splitCh_ne_nil c ys)
      rw [hR] at ih
      injection ih with ih1 ih2
      rw [List.takeWhile_cons, if_pos hx]
      conv_lhs => rw [splitCh.eq_2]
      rw [if_neg hy, hR, ih1, ih2]

mutual

/-- The worker of the direct one-entry-per-line reading: `acc` holds the
current line so far, reversed; `linesRec` is the whole reading: one entry
per line, each entry the text up to the next newline with one trailing CR
stripped; a final newline contributes no further entry, but empty interior
lines do produce entries.  This is the amended reading of the
file-name-print parse. -/
def linesRecGo (acc : List Char) : List Char → List String
  | [] => [String.mk (stripCR acc.reverse)]
  | ch :: cs =>
    if ch = '\n' then String.mk (stripCR acc.reverse) :: linesRec cs
    else linesRecGo (ch :: acc) cs
termination_by l => (l.length, 0)

/-- See `linesRecGo`. -/
def linesRec : List Char → List String
  | [] => []
  | c :: cs' => linesRecGo [] (c :: cs')
termination_by l => (l.length, 1)

end

/-- What `linesRecGo` computes, in terms of `takeWhile` and `dropWhile`. -/
theorem linesRecGo_spec : ∀ (l acc : List Char),
    linesRecGo acc l =
      String.mk (stripCR (acc.reverse ++ l.takeWhile (fun y => y != '\n'))) ::
        (match l.dropWhile (fun y => y != '\n') with
         | [] => []
         | _ :: rest => linesRec rest)
  | [], acc => by simp [linesRecGo]
  | ch :: cs, acc => by
    by_cases h : ch = '\n'
    · subst h
      simp [linesRecGo, List.takeWhile_cons, List.dropWhile_cons]
    · have hx : (ch != '\n') = true := by simp [h]
      rw [List.takeWhile_cons, List.dropWhile_cons, if_pos hx, if_pos hx]
      rw [show linesRecGo acc (ch :: cs) = linesRecGo (ch :: acc) cs from by
        conv_lhs => rw [linesRecGo.eq_2]
        rw [if_neg h]]
      rw [linesRecGo_spec cs (ch :: acc)]
      simp

/-- The `str::lines` pipeline on char lists (split, drop a trailing empty
piece, strip CRs). -/
def rustLinesL (cs : List Char) : List String :=
  let parts := splitCh '\n' cs
  let parts := if parts.getLast? = some [] then parts.dropLast else parts
  parts.map (fun l => String.mk (stripCR l))

/-- Peeling one line off the `str::lines` pipeline. -/
theorem rustLinesL_cons_sep (c x : Char) (cs' rest : List Char)
    (hd : (c :: cs').dropWhile (fun y => y != '\n') = x :: rest) :
    rustLinesL (c :: cs') =
      String.mk (stripCR ((c :: cs').takeWhile (fun y => y != '\n')))
        :: rustLinesL rest := by
  obtain ⟨p0, ps, hps⟩ := List.exists_cons_of_ne_nil (splitCh_ne_nil '\n' rest)
  simp only [rustLinesL]
  rw [splitCh_cons_sep '\n' (c :: cs') x rest hd, hps, List.getLast?_cons_cons]
  by_cases hlast : (p0 :: ps).getLast? = some []
  · rw [if_pos hlast, if_pos hlast, List.dropLast_cons₂, List.map_cons]
  · rw [if_neg hlast, if_neg hlast, List.map_cons]

/-- The split-then-patch-up pipeline of `str::lines` coincides with the
direct one-entry-per-line reading. -/
theorem rustLinesL_eq_linesRec : ∀ cs : List Char, rustLinesL cs = linesRec cs
  | [] => by simp [rustLinesL, linesRec, splitCh]
  | c :: cs' => by
    cases hd : (c :: cs').dropWhile (fun y => y != '\n') with
    | nil =>
      have ht : (c :: cs').takeWhile (fun y => y != '\n') = c :: cs' := by
        have h2 := List.takeWhile_append_dropWhile (fun y => y != '\n') (c :: cs')
        rw [hd, List.append_nil] at h2
        exact h2
      rw [show linesRec (c :: cs') = linesRecGo [] (c :: cs') from by
        simp [linesRec]]
      rw [linesRecGo_spec, hd]
      simp only [rustLinesL, splitCh_no_sep '\n' (c :: cs') hd, ht]
      rw [if_neg (by simp)]
      simp
    | cons x rest =>
      rw [rustLinesL_cons_sep c x cs' rest hd, rustLinesL_eq_linesRec rest]
      rw [show linesRec (c :: cs') = linesRecGo [] (c :: cs') from by
        simp [linesRec]]
      rw [linesRecGo_spec, hd]
      simp
termination_by cs => cs.length
decreasing_by
  exact dropWhile_cons_length _ _ _ _ hd

/-- C7 counterexample: on the stdout `"foo\n\nbar"` the returned list
keeps the empty middle line, so it is not the list of non-empty lines. -/
theorem get_compiler_outputs_counterexample :
    get_compiler_outputs "foo\n\nbar" = ["foo", "", "bar"] ∧
    (rustLines "foo\n\nbar").filter (fun l => l != "") = ["foo", "bar"] ∧
    get_compiler_outputs "foo\n\nbar" ≠
      (rustLines "foo\n\nbar").filter (fun l => l != "") :=
  ⟨by decide, by decide, by decide⟩

/-- C7 amended: the list returned by `get_compiler_outputs` has one entry
per line of the stdout, in order, including empty interior lines (each
entry is the line with a trailing CR stripped; a trailing newline
terminator contributes no entry). -/
theorem get_compiler_outputs_amended (stdout : String) :
    get_compiler_outputs stdout = linesRec stdout.data :=
  rustLinesL_eq_linesRec stdout.data

/-! ## Attached and detached flag forms -/

/-- Step of the iterator on an attached `flag=value` token. -/
theorem argsIter_cons_attached (arg : String) (rest : List String)
    (flag value : String) (ha : arg_in arg ARGS_WITH_VALUE = true)
    (hfe : findEq arg = some (flag, value)) :
    argsIter (arg :: rest) = (flag, some value) :: argsIter rest := by
  cases rest <;> simp [argsIter, ha, hfe]

/-- Step of the iterator on a detached value-taking flag: it consumes the
next token as the value. -/
theorem argsIter_cons_consume (arg v : String) (rest2 : List String)
    (ha : arg_in arg ARGS_WITH_VALUE = true) (hfe : findEq arg = none) :
    argsIter (arg :: v :: rest2) = (arg, some v) :: argsIter rest2 := by
  simp [argsIter, ha, hfe]

/-- Step of the iterator on a token that takes no value. -/
theorem argsIter_cons_plain (arg : String) (rest : List String)
    (ha : arg_in arg ARGS_WITH_VALUE = false) :
    argsIter (arg :: rest) = (arg, none) :: argsIter rest := by
  cases rest <;> simp [argsIter, ha]

/-- Whether the iterator consumes a token list without demanding a token
from whatever follows it: every detached value-taking flag finds its value
inside the list. -/
def selfContained : List String → Bool
  | [] => true
  | arg :: rest =>
    if arg_in arg ARGS_WITH_VALUE then
      match findEq arg with
      | some _ => selfContained rest
      | none =>
        match rest with
        | [] => false
        | _ :: rest2 => selfContained rest2
    else selfContained rest

theorem selfContained_cons_attached (arg : String) (rest : List String)
    (pr : String × String) (ha : arg_in arg ARGS_WITH_VALUE = true)
    (hfe : findEq arg = some pr) :
    selfContained (arg :: rest) = selfContained rest := by
  cases rest <;> simp [selfContained, ha, hfe]

theorem selfContained_cons_lone (arg : String)
    (ha : arg_in arg ARGS_WITH_VALUE = true) (hfe : findEq arg = none) :
    selfContained [arg] = false := by
  simp [selfContained, ha, hfe]

theorem selfContained_cons_consume (arg v : String) (rest2 : List String)
    (ha : arg_in arg ARGS_WITH_VALUE = true) (hfe : findEq arg = none) :
    selfContained (arg :: v :: rest2) = selfContained rest2 := by
  simp [selfContained, ha, hfe]

theorem selfContained_cons_plain (arg : String) (rest : List String)
    (ha : arg_in arg ARGS_WITH_VALUE = false) :
    selfContained (arg :: rest) = selfContained rest := by
  cases rest <;> simp [selfContained, ha]

/-- The iterator distributes over an append whose first part is
self-contained. -/
theorem argsIter_append : ∀ (pre xs : List String), selfContained pre = true →
    argsIter (pre ++ xs) = argsIter pre ++ argsIter xs
  | [], xs, _ => rfl
  | arg :: rest, xs, h => by
    by_cases ha : arg_in arg ARGS_WITH_VALUE
    · cases hfe : findEq arg with
      | some pr =>
        obtain ⟨flag, value⟩ := pr
        rw [selfContained_cons_attached arg rest (flag, value) ha hfe] at h
        rw [List.cons_append, argsIter_cons_attached arg (rest ++ xs) flag value ha hfe,
          argsIter_cons_attached arg rest flag value ha hfe,
          argsIter_append rest xs h, List.cons_append]
      | none =>
        cases rest with
        | nil =>
          rw [selfContained_cons_lone arg ha hfe] at h
          cases h
        | cons v rest2 =>
          rw [selfContained_cons_consume arg v rest2 ha hfe] at h
          rw [List.cons_append, List.cons_append,
            argsIter_cons_consume arg v (rest2 ++ xs) ha hfe,
            argsIter_cons_consume arg v rest2 ha hfe,
            argsIter_append rest2 xs h, List.cons_append]
    · have ha' : arg_in arg ARGS_WITH_VALUE = false := by
        simpa using ha
      rw [selfContained_cons_plain arg rest ha'] at h
      rw [List.cons_append, argsIter_cons_plain arg (rest ++ xs) ha',
        argsIter_cons_plain arg rest ha', argsIter_append rest xs h,
        List.cons_append]

/-- Splitting at the separator when the prefix avoids it. -/
theorem breakAtChar_append (c : Char) : ∀ (l r : List Char), c ∉ l →
    breakAtChar c (l ++ c :: r) = some (l, r)
  | [], r, _ => by simp [breakAtChar]
  | x :: xs, r, h => by
    have hx : ¬ x = c := fun hh => h (hh ▸ List.mem_cons_self x xs)
    have h2 : c ∉ xs := fun hh => h (List.mem_cons_of_mem x hh)
    simp [breakAtChar, hx, breakAtChar_append c xs r h2]

/-- No split when the separator does not occur. -/
theorem breakAtChar_none (c : Char) : ∀ l : List Char, c ∉ l →
    breakAtChar c l = none
  | [], _ => rfl
  | x :: xs, h => by
    have hx : ¬ x = c := fun hh => h (hh ▸ List.mem_cons_self x xs)
    have h2 : c ∉ xs := fun hh => h (List.mem_cons_of_mem x hh)
    simp [breakAtChar, hx, breakAtChar_none c xs h2]

/-- The attached token `f=v` splits exactly at the boundary when `f` has
no `=`. -/
theorem findEq_attached (f v : String) (hne : '=' ∉ f.data) :
    findEq (f ++ "=" ++ v) = some (f, v) := by
  unfold findEq
  rw [show (f ++ "=" ++ v).data = f.data ++ '=' :: v.data from by
    simp [String.data_append]]
  rw [breakAtChar_append '=' f.data v.data hne]
  rfl

/-- A flag without `=` does not split. -/
theorem findEq_none (f : String) (hne : '=' ∉ f.data) : findEq f = none := by
  unfold findEq
  rw [breakAtChar_none '=' f.data hne]
  rfl

/-- An exact member of the value-taking set is matched by `arg_in`. -/
theorem arg_in_of_mem {f : String} (hf : f ∈ ARGS_WITH_VALUE) :
    arg_in f ARGS_WITH_VALUE = true := by
  unfold arg_in
  rw [Bool.or_eq_true]
  left
  simpa using hf

/-- The attached token `f=v` is matched by `arg_in` because the member `f`
is one of its prefixes. -/
theorem arg_in_attached {f : String} (v : String) (hf : f ∈ ARGS_WITH_VALUE) :
    arg_in (f ++ "=" ++ v) ARGS_WITH_VALUE = true := by
  unfold arg_in
  rw [Bool.or_eq_true]
  right
  rw [List.any_eq_true]
  refine ⟨f, hf, ?_⟩
  unfold strStartsWith
  rw [List.isPrefixOf_iff_prefix,
    show (f ++ "=" ++ v).data = f.data ++ '=' :: v.data from by
      simp [String.data_append]]
  exact List.prefix_append f.data ('=' :: v.data)

/-- `parse_arguments` factors through the iterator. -/
theorem parse_arguments_ext (a1 a2 : List String)
    (h : argsIter a1 = argsIter a2) : parse_arguments a1 = parse_arguments a2 := by
  unfold parse_arguments
  simp only [h]

/-- C4 counterexample: the claim as stated fails for surrounding vectors
in which a preceding detached value-taking flag (here a valueless
`--emit`) swallows the attached token whole: the iterator yields different
pairs and `parse_arguments` returns different results for the attached and
detached forms. -/
theorem attached_detached_counterexample :
    "--out-dir" ∈ ARGS_WITH_VALUE ∧
    ('=' ∉ ("--out-dir" : String).data) ∧
    argsIter ["--emit", "--out-dir=out"] ≠
      argsIter ["--emit", "--out-dir", "out"] ∧
    parse_arguments ["--emit", "--out-dir=out"] ≠
      parse_arguments ["--emit", "--out-dir", "out"] :=
  ⟨by decide, by decide, by decide, by decide⟩

/-- C4 amended: for an exact member `f` of `ARGS_WITH_VALUE` containing no
`=`, any value `v`, and any surrounding `pre`/`post` such that the
iterator consumes `pre` on its own (so no flag in `pre` reaches across the
boundary — the condition the counterexample shows is needed), the attached
`f=v` and detached `f v` forms are yielded as the same pair `(f, some v)`
in the same position, and `parse_arguments` returns the same result on
both vectors. -/
theorem attached_detached_equivalent (f v : String) (pre post : List String)
    (hf : f ∈ ARGS_WITH_VALUE) (hne : '=' ∉ f.data)
    (hpre : selfContained pre = true) :
    argsIter (pre ++ [f ++ "=" ++ v] ++ post) =
      argsIter pre ++ (f, some v) :: argsIter post ∧
    argsIter (pre ++ [f, v] ++ post) =
      argsIter pre ++ (f, some v) :: argsIter post ∧
    parse_arguments (pre ++ [f ++ "=" ++ v] ++ post) =
      parse_arguments (pre ++ [f, v] ++ post) := by
  have h1 : argsIter (pre ++ [f ++ "=" ++ v] ++ post) =
      argsIter pre ++ (f, some v) :: argsIter post := by
    rw [List.append_assoc, argsIter_append pre _ hpre, List.cons_append,
      List.nil_append,
      argsIter_cons_attached _ post f v (arg_in_attached v hf)
        (findEq_attached f v hne)]
  have h2 : argsIter (pre ++ [f, v] ++ post) =
      argsIter pre ++ (f, some v) :: argsIter post := by
    rw [List.append_assoc, argsIter_append pre _ hpre, List.cons_append,
      List.cons_append, List.nil_append,
      argsIter_cons_consume f v post (arg_in_of_mem hf) (findEq_none f hne)]
  exact ⟨h1, h2, parse_arguments_ext _ _ (h1.trans h2.symm)⟩

/-- C4 witness: `--out-dir=out` and `--out-dir out` behind the
self-contained context `--emit link` parse identically. -/
theorem attached_detached_equivalent_witness :
    argsIter ["--emit", "link", "--out-dir=out", "foo.rs"] =
      argsIter ["--emit", "link"] ++ ("--out-dir", some "out")
        :: argsIter ["foo.rs"] ∧
    argsIter ["--emit", "link", "--out-dir", "out", "foo.rs"] =
      argsIter ["--emit", "link"] ++ ("--out-dir", some "out")
        :: argsIter ["foo.rs"] ∧
    parse_arguments ["--emit", "link", "--out-dir=out", "foo.rs"] =
      parse_arguments ["--emit", "link", "--out-dir", "out", "foo.rs"] :=
  attached_detached_equivalent "--out-dir" "out" ["--emit", "link"] ["foo.rs"]
    (by decide) (by decide) (by decide)

end SccacheRust
